import Mathlib

/-!
Verification of the PDF statement-intelligence core of the
Personal-financeAgent repository: a shallow embedding of the column-schema
hypothesis pipeline (stages 3-9 of `pdf_intelligence` plus the
`parse_statement` decision flow of `pipeline/core.py`), with theorems about
its claims.

Modelling conventions:
* Python floats are modelled as exact rationals (`ℚ`).
* Results of external-library text analysis (the `re` regular-expression
  searches and the `pandas` date parse) are carried as abstract fields on
  the token/row model: each field is documented with the exact regex of the
  source it stands for.  All arithmetic, control flow and list processing is
  translated from the source.
* `round(x, n)` (Python round-half-even) is modelled exactly on `ℚ`.
-/

/-- One positioned token, as produced by `stage1_layout.extract_layout`.
The text itself is not carried; instead each field derived from the text by
a regular-expression search is modelled as an abstract attribute:
* `amount`: value of the first match of `stage4_validation.AMOUNT_REGEX`
  (pattern `\d{1,3}(?:,\d{3})*\.\d{2}`) in the token's text, with commas
  stripped and parsed as a (nonnegative) decimal; `none` when no match.
* `amountShape`: whether `stage3_hypotheses.AMOUNT_REGEX` (the
  word-boundary-anchored amount pattern) matches somewhere in the text.
* `cr`: value captured by `stage9_extraction.CR_REGEX`
  (pattern `([\d,]+\.\d{2})\s*\(cr\)`, case-insensitive); `none` if absent.
* `dr`: value captured by `stage9_extraction.DR_REGEX`. -/
structure Word where
  x0 : ℚ
  x1 : ℚ
  amount : Option ℚ
  amountShape : Bool
  cr : Option ℚ
  dr : Option ℚ
deriving DecidableEq

/-- One candidate row as assembled by `stage2_tables.detect_candidate_rows`.
`date` abstracts `stage4_dates.extract_date` on the row's joined text (the
regex match plus `pandas.to_datetime`): dates are represented by an integer
embedding that preserves chronological order, `none` when no date parses.
`summary` abstracts `stage9_extraction.is_summary_row` (whether the joined
lowercased text contains one of the `SUMMARY_KEYWORDS`). -/
structure Row where
  words : List Word
  date : Option ℤ
  summary : Bool
deriving DecidableEq

/-- Embedding of `stage4_dates.extract_date` (regex + pandas parse modelled
by the abstract `date` attribute of the row). -/
def extract_date (r : Row) : Option ℤ := r.date

/-- Embedding of `stage9_extraction.is_summary_row` (keyword search in the
joined text, modelled by the abstract `summary` attribute). -/
def is_summary_row (r : Row) : Bool := r.summary

/-- Column schema hypothesis: the Python code uses dicts tagged with
`"type": "single"` / `"type": "dual"`; we embed them as a tagged union. -/
inductive Schema where
  | single (amount_x balance_x : ℚ)
  | dual (deposit_x withdrawal_x balance_x : ℚ)
deriving DecidableEq

/-- The `balance_x` entry of a schema dict (present in both variants). -/
def Schema.balance_x : Schema → ℚ
  | .single _ b => b
  | .dual _ _ b => b

/-- Embedding of `stage4_validation.extract_amount(row, target_x, tol=15)`:
walk the row's tokens in order; at the first token whose `x0` lies within
`tol` of `target_x` and whose text contains an amount-shaped substring,
return that substring's value.  A `None` target yields `None`. -/
def extract_amount : List Word → Option ℚ → ℚ → Option ℚ
  | _, none, _ => none
  | [], some _, _ => none
  | w :: ws, some t, tol =>
    if |w.x0 - t| ≤ tol then
      match w.amount with
      | some v => some v
      | none => extract_amount ws (some t) tol
    else
      extract_amount ws (some t) tol

/-- The `{reconciled, errors}` tally of `stage4_validation`. -/
structure ValidationResult where
  reconciled : ℕ
  errors : ℕ
deriving DecidableEq

/-- Loop state of `validate_hypothesis`: the running tally plus
`prev_balance` (`none` until the bootstrap row is seen). -/
structure VState where
  reconciled : ℕ
  errors : ℕ
  prev : Option ℚ
deriving DecidableEq

/-- One iteration of the `for row in rows` loop of
`stage4_validation.validate_hypothesis`. -/
def validateStep (h : Schema) (s : VState) (row : Row) : VState :=
  match extract_amount row.words (some h.balance_x) 15 with
  | none => s
  | some bal =>
    match s.prev with
    | none => ⟨s.reconciled + 1, s.errors, some bal⟩
    | some prev =>
      match h with
      | .single ax _ =>
        match extract_amount row.words (some ax) 15 with
        | none => ⟨s.reconciled, s.errors, some bal⟩
        | some amt =>
          if |prev + amt - bal| ≤ 1 ∨ |prev - amt - bal| ≤ 1 then
            ⟨s.reconciled + 1, s.errors, some bal⟩
          else
            ⟨s.reconciled, s.errors + 1, some bal⟩
      | .dual dx wx _ =>
        match extract_amount row.words (some dx) 15 with
        | some dep =>
          if |prev + dep - bal| ≤ 1 then
            ⟨s.reconciled + 1, s.errors, some bal⟩
          else
            ⟨s.reconciled, s.errors + 1, some bal⟩
        | none =>
          match extract_amount row.words (some wx) 15 with
          | some wd =>
            if |prev - wd - bal| ≤ 1 then
              ⟨s.reconciled + 1, s.errors, some bal⟩
            else
              ⟨s.reconciled, s.errors + 1, some bal⟩
          | none => ⟨s.reconciled + 1, s.errors, some bal⟩

/-- Embedding of `stage4_validation.validate_hypothesis(rows, h)`. -/
def validate_hypothesis (rows : List Row) (h : Schema) : ValidationResult :=
  let s := rows.foldl (validateStep h) ⟨0, 0, none⟩
  ⟨s.reconciled, s.errors⟩

/-- Inner pair loop of `stage3_hypotheses.generate_dual_hypotheses`:
`for dep in left: for wit in left:` with the `dep == wit` and
`abs(dep - wit) < 15` guards. -/
def dualsFor (left : List ℚ) (bal : ℚ) : List Schema :=
  left.flatMap fun dep =>
    left.filterMap fun wit =>
      if dep = wit then none
      else if |dep - wit| < 15 then none
      else some (Schema.dual dep wit bal)

/-- `for i, bal in enumerate(cols): left = cols[:i]` of
`generate_dual_hypotheses`, with the already-seen prefix accumulated. -/
def genDualAux (left : List ℚ) : List ℚ → List Schema
  | [] => []
  | bal :: rest => dualsFor left bal ++ genDualAux (left ++ [bal]) rest

/-- Embedding of `stage3_hypotheses.generate_dual_hypotheses(cols)`. -/
def generate_dual_hypotheses (cols : List ℚ) : List Schema :=
  genDualAux [] cols

/-- Inner loop of `stage3_hypotheses.generate_single_amount_hypotheses`:
`for amt in left:` with the `abs(amt - bal) < 15` guard. -/
def singlesFor (left : List ℚ) (bal : ℚ) : List Schema :=
  left.filterMap fun amt =>
    if |amt - bal| < 15 then none
    else some (Schema.single amt bal)

/-- Prefix-accumulating loop of `generate_single_amount_hypotheses`. -/
def genSingleAux (left : List ℚ) : List ℚ → List Schema
  | [] => []
  | bal :: rest => singlesFor left bal ++ genSingleAux (left ++ [bal]) rest

/-- Embedding of `stage3_hypotheses.generate_single_amount_hypotheses`. -/
def generate_single_amount_hypotheses (cols : List ℚ) : List Schema :=
  genSingleAux [] cols

/-- Python round-half-even on integers: `round` ties go to the even
integer. -/
def roundHalfEven (q : ℚ) : ℤ :=
  if q - (⌊q⌋ : ℚ) < 1 / 2 then ⌊q⌋
  else if 1 / 2 < q - (⌊q⌋ : ℚ) then ⌊q⌋ + 1
  else if ⌊q⌋ % 2 = 0 then ⌊q⌋ else ⌊q⌋ + 1

/-- Python `round(x, n)`, modelled exactly on rationals (the source applies
it to floats; the model idealises the float as the exact rational). -/
def pyRound (q : ℚ) (n : ℕ) : ℚ :=
  (roundHalfEven (q * 10 ^ n) : ℚ) / 10 ^ n

/-- Insert one `(date, row)` pair into an already-sorted list, after all
pairs whose date key is `≤` its own: folding this over the input list from
the left is a stable sort by date, matching Python's stable
`list.sort(key=...)`. -/
def insertByDate (x : ℤ × Row) : List (ℤ × Row) → List (ℤ × Row)
  | [] => [x]
  | y :: ys => if x.1 < y.1 then x :: y :: ys else y :: insertByDate x ys

/-- Stable sort of `(date, row)` pairs by date (`dated.sort(key=...)`). -/
def sortByDate (l : List (ℤ × Row)) : List (ℤ × Row) :=
  l.foldl (fun acc x => insertByDate x acc) []

/-- Ascending insertion for plain rationals, used to model Python's
`sorted(...)`. -/
def insertAsc (x : ℚ) : List ℚ → List ℚ
  | [] => [x]
  | y :: ys => if x ≤ y then x :: y :: ys else y :: insertAsc x ys

/-- `sorted(set(l))`: the distinct elements of `l` in ascending order. -/
def pySortedSet (l : List ℚ) : List ℚ :=
  l.dedup.foldr insertAsc []

/-- Embedding of `stage3_hypotheses._should_use_right_edge(x0_vals,
x1_vals)`.  `int(u0 * 0.6)` is modelled as `⌊u0 * (3/5)⌋` (the float literal
idealised as the exact rational; truncation equals floor here because the
product is nonnegative). -/
def should_use_right_edge (x0_vals x1_vals : List ℚ) : Bool :=
  if x0_vals = [] ∨ x1_vals = [] then false
  else
    let u0 := (x0_vals.map (fun v => pyRound v 1)).dedup.length
    let u1 := (x1_vals.map (fun v => pyRound v 1)).dedup.length
    if u1 = 0 then false
    else u1 ≤ max 2 (⌊(u0 : ℚ) * (3 / 5)⌋.toNat)

/-- Embedding of `stage3_hypotheses.extract_numeric_columns(rows,
precision=5)`: collect the edges of every token matched by the stage-3
amount regex (row-major order), choose the anchoring edge, round each
anchor to `precision` decimals and return the sorted distinct anchors. -/
def extract_numeric_columns (rows : List Row) (precision : ℕ) : List ℚ :=
  let amountWords := (rows.flatMap Row.words).filter Word.amountShape
  let x0_vals := amountWords.map Word.x0
  let x1_vals := amountWords.map Word.x1
  let use_right_edge := should_use_right_edge x0_vals x1_vals
  pySortedSet (amountWords.map fun w =>
    pyRound (if use_right_edge then w.x1 else w.x0) precision)

/-- Modelled from the spec: `score_hypothesis` lives in
`pdf_intelligence/stage5_confidence.py`, which is imported by
`stage6_orchestrator.py` but absent from the repository sources; the spec
gives its reference behaviour as `reconciled / (reconciled + errors)` with
an explicit 0 result when the denominator is 0. -/
def score_hypothesis (res : ValidationResult) : ℚ :=
  if res.reconciled + res.errors = 0 then 0
  else (res.reconciled : ℚ) / ((res.reconciled : ℚ) + (res.errors : ℚ))

/-- Whether a schema dict carries `"type": "dual"`. -/
def Schema.isDual : Schema → Bool
  | .dual _ _ _ => true
  | .single _ _ => false

/-- Python `max(evaluated, key=...)`: first maximal element under the
ranking score (a later element replaces the champion only when strictly
greater). -/
def maxByRanking : List (Schema × ℚ × ℚ) → Option (Schema × ℚ × ℚ)
  | [] => none
  | x :: xs => some (xs.foldl (fun b y => if b.2.1 < y.2.1 then y else b) x)

/-- Embedding of `stage6_orchestrator.choose_best_hypothesis(rows,
min_rows=10)`: filter rows with a parseable date, reject when fewer than
`min_rows`, sort chronologically, enumerate and validate hypotheses,
discard those with fewer than `min_rows` evaluated rows, rank (dual ×1.3)
and return the best schema with its clamped base confidence. -/
def choose_best_hypothesis (rows : List Row) (min_rows : ℕ) :
    Option Schema × ℚ :=
  let dated := rows.filterMap fun r => (extract_date r).map fun d => (d, r)
  if dated.length < min_rows then (none, 0)
  else
    let sorted_rows := (sortByDate dated).map Prod.snd
    let cols := extract_numeric_columns sorted_rows 5
    let hyps := generate_dual_hypotheses cols ++
      generate_single_amount_hypotheses cols
    let evaluated := hyps.filterMap fun h =>
      let res := validate_hypothesis sorted_rows h
      if res.reconciled + res.errors < min_rows then none
      else
        let base_confidence := score_hypothesis res
        let ranking_score :=
          if h.isDual then base_confidence * (13 / 10) else base_confidence
        some (h, ranking_score, base_confidence)
    match maxByRanking evaluated with
    | none => (none, 0)
    | some best => (some best.1, min 1 (max 0 best.2.2))

/-- Variant label `"original"`. -/
def variantOriginal : String := "original"

/-- Variant label `"reversed"`. -/
def variantReversed : String := "reversed"

/-- Variant label `"drop_first_3"`. -/
def variantDropFirst3 : String := "drop_first_3"

/-- Variant label `"drop_last_3"`. -/
def variantDropLast3 : String := "drop_last_3"

/-- One arbitration candidate dict `{schema, confidence, variant}` of
`stage7_retry`. -/
structure Candidate where
  schema : Schema
  confidence : ℚ
  variant : String
deriving DecidableEq

/-- The tagged result dict of `stage7_retry.retry_with_variants`
(`decision` is `"accepted"`, `"needs_arbitration"` or `"rejected"`). -/
inductive RetryOutcome where
  | accepted (schema : Schema) (confidence : ℚ) (variant : String)
  | needsArbitration (candidates : List Candidate)
  | rejected
deriving DecidableEq

/-- `final.get("schema")` on a retry-outcome dict: only the accepted dict
carries a `"schema"` key. -/
def RetryOutcome.schemaField : RetryOutcome → Option Schema
  | .accepted s _ _ => some s
  | .needsArbitration _ => none
  | .rejected => none

/-- `final["confidence"]` on a retry-outcome dict; only ever read on the
accepted variant (the other cases are given a dummy 0). -/
def RetryOutcome.confidenceField : RetryOutcome → ℚ
  | .accepted _ c _ => c
  | .needsArbitration _ => 0
  | .rejected => 0

/-- The variant list of `retry_with_variants`: original, reversed, and —
when the row count exceeds 6 — `rows[3:]` and `rows[:-3]`, in this fixed
order. -/
def retryVariants (rows : List Row) : List (String × List Row) :=
  [(variantOriginal, rows), (variantReversed, rows.reverse)] ++
    (if 6 < rows.length then [(variantDropFirst3, rows.drop 3)] else []) ++
    (if 6 < rows.length then
      [(variantDropLast3, rows.take (rows.length - 3))] else [])

/-- The `for name, variant_rows in variants` loop of
`retry_with_variants`, with the accumulated candidate list, followed by the
post-loop decision (the `retry_threshold` branch of the source is
unreachable because the `len(candidates) >= 1` branch precedes it; it is
embedded nevertheless). -/
def retryLoop (choose : List Row → Option Schema × ℚ)
    (accept_threshold retry_threshold : ℚ) :
    List (String × List Row) → List Candidate → RetryOutcome
  | [], candidates =>
    if 1 ≤ candidates.length then .needsArbitration candidates
    else
      match candidates with
      | c :: _ =>
        if retry_threshold ≤ c.confidence then
          .accepted c.schema c.confidence c.variant
        else .rejected
      | [] => .rejected
  | (name, variant_rows) :: rest, candidates =>
    match choose variant_rows with
    | (none, _) =>
      retryLoop choose accept_threshold retry_threshold rest candidates
    | (some schema, confidence) =>
      if accept_threshold ≤ confidence then
        .accepted schema confidence name
      else
        retryLoop choose accept_threshold retry_threshold rest
          (candidates ++ [⟨schema, confidence, name⟩])

/-- Embedding of `stage7_retry.retry_with_variants(rows,
choose_best_hypothesis, accept_threshold=0.95, retry_threshold=0.7)`. -/
def retry_with_variants (rows : List Row)
    (choose : List Row → Option Schema × ℚ)
    (accept_threshold retry_threshold : ℚ) : RetryOutcome :=
  retryLoop choose accept_threshold retry_threshold (retryVariants rows) []

/-- Embedding of `stage8_llm_arbitration.llm_arbitrate(candidates)`.
The external HTTP call, the JSON extraction of the response text and the
`isinstance(idx, int)` check are abstracted into `response : Option ℤ`,
which is `some idx` exactly when the request succeeded, the response body
contained a JSON object and its `winner_index` field was an integer `idx`;
every failure mode on that path (network/timeout error, non-2xx status, no
braces in the text, unparseable JSON, missing or non-integer field) is
`none`.  The `LLM_ENABLED` flag, the `< 2` candidate guard and the index
range check are translated from the source. -/
def llm_arbitrate {α : Type} (enabled : Bool) (response : Option ℤ)
    (candidates : List α) : Option α :=
  if !enabled then none
  else if candidates.length < 2 then none
  else
    match response with
    | none => none
    | some idx =>
      if idx < 0 ∨ (candidates.length : ℤ) ≤ idx then none
      else candidates.get? idx.toNat

/-- Embedding of `stage9_extraction.extract_explicit_dr_cr(row, balance_x,
tol=15)`: scan tokens in order, skipping those within `tol` of the balance
column; the first `(Cr)` match yields `(value, 0.0)`, the first `(Dr)`
match yields `(0.0, value)` (per token, `(Cr)` is tried first); no match
yields `(None, None)`. -/
def extract_explicit_dr_cr : List Word → ℚ → ℚ → Option ℚ × Option ℚ
  | [], _, _ => (none, none)
  | w :: ws, balance_x, tol =>
    if |w.x0 - balance_x| ≤ tol then extract_explicit_dr_cr ws balance_x tol
    else
      match w.cr with
      | some v => (some v, some 0)
      | none =>
        match w.dr with
        | some v => (some 0, some v)
        | none => extract_explicit_dr_cr ws balance_x tol

/-- One emitted transaction record of `stage9_extraction`.  The
`description`, `source_pdf` and derived merchant fields are pure string
plumbing (regex sanitization of text this model does not carry) and are
omitted; every numeric/date field is modelled. -/
structure Txn where
  date : ℤ
  amount : ℚ
  deposit : ℚ
  withdrawal : ℚ
  balance : ℚ
  confidence : ℚ
deriving DecidableEq

/-- The `"deposit_x"` entry of a schema dict (`h.get("deposit_x")`:
absent, i.e. `none`, on a single schema). -/
def Schema.depositField : Schema → Option ℚ
  | .single _ _ => none
  | .dual d _ _ => some d

/-- The `"withdrawal_x"` entry of a schema dict. -/
def Schema.withdrawalField : Schema → Option ℚ
  | .single _ _ => none
  | .dual _ w _ => some w

/-- Step 2 of the deposit/withdrawal priority chain of
`extract_transactions`: when the explicit-marker step produced nothing and
the schema is dual, take whichever of the deposit/withdrawal columns has an
extractable value (the other becomes `0.0`). -/
def dualColumnStep (schema : Schema) (words : List Word)
    (dw : Option ℚ × Option ℚ) : Option ℚ × Option ℚ :=
  if dw.1 = none ∧ dw.2 = none ∧ schema.isDual then
    match extract_amount words schema.depositField 15 with
    | some dep => (some dep, some (0 : ℚ))
    | none =>
      match extract_amount words schema.withdrawalField 15 with
      | some wd => (some (0 : ℚ), some wd)
      | none => (none, none)
  else dw

/-- Step 3 of the priority chain: the balance-delta fallback.  After steps
1 and 2 the pair is either both-`None` or both-set, so the joint `None`
test of the source is modelled on the pair; in the both-set branch `getD`
reads the present values. -/
def deltaFallbackStep (prev_balance : Option ℚ) (balance : ℚ)
    (dw : Option ℚ × Option ℚ) : ℚ × ℚ :=
  if dw.1 = none ∧ dw.2 = none then
    match prev_balance with
    | some prev =>
      if 0 ≤ balance - prev then (balance - prev, 0)
      else (0, -(balance - prev))
    | none => ((0 : ℚ), (0 : ℚ))
  else (dw.1.getD 0, dw.2.getD 0)

/-- The `for row in rows` loop of `stage9_extraction.extract_transactions`,
with the running `prev_balance`. -/
def extractLoop (schema : Schema) (confidence : ℚ) :
    List Row → Option ℚ → List Txn
  | [], _ => []
  | r :: rs, prev_balance =>
    if is_summary_row r then extractLoop schema confidence rs prev_balance
    else
      match extract_date r with
      | none => extractLoop schema confidence rs prev_balance
      | some date =>
        match extract_amount r.words (some schema.balance_x) 15 with
        | none => extractLoop schema confidence rs prev_balance
        | some balance =>
          let dw := deltaFallbackStep prev_balance balance
            (dualColumnStep schema r.words
              (extract_explicit_dr_cr r.words schema.balance_x 15))
          { date := date
            amount := pyRound (dw.1 - dw.2) 2
            deposit := pyRound dw.1 2
            withdrawal := pyRound dw.2 2
            balance := pyRound balance 2
            confidence := pyRound confidence 3 } ::
            extractLoop schema confidence rs (some balance)

/-- Embedding of `stage9_extraction.extract_transactions(rows, schema,
confidence, source_pdf)`. -/
def extract_transactions (rows : List Row) (schema : Schema)
    (confidence : ℚ) : List Txn :=
  extractLoop schema confidence rows none

/-- Error message of `pipeline.core.parse_statement` when no schema
survives. -/
def schemaFailMsg : String := "Schema detection failed"

/-- Embedding of the schema-decision flow of
`pipeline.core.parse_statement` (lines 94-104): the PDF/DB plumbing is out
of scope, so the function takes the candidate rows directly and returns
either the final `(schema, confidence)` pair used for extraction or the
`"Schema detection failed"` error.  Note the source passes the one-element
list `[final]` — the retry-outcome dict itself — to `llm_arbitrate`, whose
`len(candidates) < 2` guard therefore always yields `None`; the
`llm_arbitrate(...) or final` idiom is `Option.getD`. -/
def parse_statement_core (rows : List Row) (llm_enabled : Bool)
    (llm_response : Option ℤ) : Except String (Schema × ℚ) :=
  let sc := choose_best_hypothesis rows 10
  let final : RetryOutcome :=
    if sc.2 < 9 / 10 then
      let final := retry_with_variants rows
        (fun v => choose_best_hypothesis v 10) (95 / 100) (7 / 10)
      match final with
      | .needsArbitration _ =>
        (llm_arbitrate llm_enabled llm_response [final]).getD final
      | _ => final
    else
      -- the source's `{"schema": schema, "confidence": confidence}` dict:
      -- only its schema/confidence entries are ever read, the variant
      -- label is a placeholder
      match sc.1 with
      | some s => .accepted s sc.2 variantOriginal
      | none => .rejected
  match final.schemaField with
  | none => .error schemaFailMsg
  | some s => .ok (s, final.confidenceField)

/-- Lines 103-119 of `pipeline.core.parse_statement`: on the error path the
function returns before `extract_transactions` is ever called, so the
document contributes no transactions; on success the extractor runs on the
original row list with the final schema and confidence. -/
def parse_statement_transactions (rows : List Row) (llm_enabled : Bool)
    (llm_response : Option ℤ) : List Txn :=
  match parse_statement_core rows llm_enabled llm_response with
  | .error _ => []
  | .ok (s, c) => extract_transactions rows s c

/-! ### Concrete fixtures

Realizable inputs used by the concrete parts of the theorems.  An
`amtWord x v` stands for a token whose text is exactly a plain amount such
as `"500.00"` (so the stage-3 and stage-4 amount regexes both match, with
value `v`, and the Cr/Dr regexes do not); a `dateWord x` stands for a token
whose text is exactly a date such as `"01/01/2025"` (no amount regex
matches). -/

/-- A token carrying one plain amount-shaped text at left edge `x`. -/
def amtWord (x v : ℚ) : Word := ⟨x, x + 10, some v, true, none, none⟩

/-- A token carrying a date text (no amount-shaped substring) at `x`. -/
def dateWord (x : ℚ) : Word := ⟨x, x + 30, none, false, none, none⟩

/-- The spec's 3-row dual example: balances 1000, 1500 (deposit 500),
1200 (withdrawal 300), with columns deposit=0, withdrawal=30, balance=60. -/
def dualExampleRows : List Row :=
  [⟨[amtWord 60 1000], some 1, false⟩,
   ⟨[amtWord 0 500, amtWord 60 1500], some 2, false⟩,
   ⟨[amtWord 30 300, amtWord 60 1200], some 3, false⟩]

/-- A 12-row single-amount-plus-balance document (amount column at
`x0 = 0`, balance column at `x0 = 100`): `ledgerRow i a b` has date `i`,
amount `a` and balance `b`. -/
def ledgerRow (i : ℤ) (a b : ℚ) : Row :=
  ⟨[dateWord 200, amtWord 0 a, amtWord 100 b], some i, false⟩

/-- A document on which the selector yields confidence 5/6 (< 0.9), every
retry variant stays below the 0.95 acceptance bar, and the retry outcome
is `needs_arbitration`: rows 2-10 reconcile against the running balance,
rows 11 and 12 do not. -/
def arbFailRows : List Row :=
  [ledgerRow 1 0 1000, ledgerRow 2 10 1010, ledgerRow 3 10 1020,
   ledgerRow 4 10 1030, ledgerRow 5 10 1040, ledgerRow 6 10 1050,
   ledgerRow 7 10 1060, ledgerRow 8 10 1070, ledgerRow 9 10 1080,
   ledgerRow 10 10 1090, ledgerRow 11 10 2000, ledgerRow 12 10 3000]

/-! ### Spec-side reference definitions

The following definitions are written from the words of the specification
(not from the source) and are compared with the embedded code by the
refinement theorems below. -/

/-- Dual-schema validation as the spec words it: the first row with an
extractable balance is reconciled with no arithmetic check; a later such
row with an extractable deposit reconciles iff
`|prev + deposit - balance| ≤ 1`, otherwise with an extractable withdrawal
iff `|prev - withdrawal - balance| ≤ 1`, otherwise it is a balance-only
posting counted reconciled; the previous balance becomes the row's
balance after every such row regardless of outcome. -/
def dualSpecLoop (dx wx bx : ℚ) :
    List Row → Option ℚ → ℕ → ℕ → ValidationResult
  | [], _, rec, err => ⟨rec, err⟩
  | r :: rs, prevOpt, rec, err =>
    match extract_amount r.words (some bx) 15 with
    | none => dualSpecLoop dx wx bx rs prevOpt rec err
    | some bal =>
      match prevOpt with
      | none => dualSpecLoop dx wx bx rs (some bal) (rec + 1) err
      | some prev =>
        let ok : Bool :=
          match extract_amount r.words (some dx) 15 with
          | some dep => decide (|prev + dep - bal| ≤ 1)
          | none =>
            match extract_amount r.words (some wx) 15 with
            | some wd => decide (|prev - wd - bal| ≤ 1)
            | none => true
        if ok then dualSpecLoop dx wx bx rs (some bal) (rec + 1) err
        else dualSpecLoop dx wx bx rs (some bal) rec (err + 1)

/-- Spec-side dual validation over a row list. -/
def validateDualSpec (rows : List Row) (dx wx bx : ℚ) : ValidationResult :=
  dualSpecLoop dx wx bx rows none 0 0

/-- Single-schema validation as the claim words it: after the bootstrap
row, a row with no extractable amount only rolls the previous balance
forward; a row with an extractable amount reconciles iff either direction
matches within 1, otherwise it is an error. -/
def singleSpecLoop (ax bx : ℚ) :
    List Row → Option ℚ → ℕ → ℕ → ValidationResult
  | [], _, rec, err => ⟨rec, err⟩
  | r :: rs, prevOpt, rec, err =>
    match extract_amount r.words (some bx) 15 with
    | none => singleSpecLoop ax bx rs prevOpt rec err
    | some bal =>
      match prevOpt with
      | none => singleSpecLoop ax bx rs (some bal) (rec + 1) err
      | some prev =>
        match extract_amount r.words (some ax) 15 with
        | none => singleSpecLoop ax bx rs (some bal) rec err
        | some amt =>
          if |prev + amt - bal| ≤ 1 ∨ |prev - amt - bal| ≤ 1 then
            singleSpecLoop ax bx rs (some bal) (rec + 1) err
          else
            singleSpecLoop ax bx rs (some bal) rec (err + 1)

/-- Spec-side single validation over a row list. -/
def validateSingleSpec (rows : List Row) (ax bx : ℚ) : ValidationResult :=
  singleSpecLoop ax bx rows none 0 0

/-- The retry controller as the claim words it: evaluate the selector on
the fixed variant list; accept the first variant whose confidence reaches
`accept_threshold`; with no such variant, a non-empty candidate list (every
variant that produced a schema, in order) yields `needs_arbitration`,
otherwise `rejected`.  The `retry_threshold` knob does not appear. -/
def varCandidates (choose : List Row → Option Schema × ℚ)
    (variants : List (String × List Row)) : List Candidate :=
  variants.filterMap fun p =>
    match choose p.2 with
    | (some s, c) => some ⟨s, c, p.1⟩
    | (none, _) => none

/-- The candidate list over the fixed variant list of the controller. -/
def retryCandidates (rows : List Row)
    (choose : List Row → Option Schema × ℚ) : List Candidate :=
  varCandidates choose (retryVariants rows)

/-- Spec-side retry controller outcome. -/
def retryControllerSpec (rows : List Row)
    (choose : List Row → Option Schema × ℚ)
    (accept_threshold : ℚ) : RetryOutcome :=
  let cands := retryCandidates rows choose
  match cands.find? (fun c => decide (accept_threshold ≤ c.confidence)) with
  | some c => .accepted c.schema c.confidence c.variant
  | none => if cands = [] then .rejected else .needsArbitration cands

/-- Token-level nonnegativity of the abstract regex-derived values: the
amount regexes of the source match only unsigned decimal literals, so
every value they produce is nonnegative; this predicate states that a
`Word` model is realizable in that respect. -/
def Word.regexRealizable (w : Word) : Bool :=
  (w.amount.all fun v => decide (0 ≤ v)) &&
    (w.cr.all fun v => decide (0 ≤ v)) &&
    (w.dr.all fun v => decide (0 ≤ v))

/-- All tokens of all rows are regex-realizable. -/
def rowsRealizable (rows : List Row) : Bool :=
  rows.all fun r => r.words.all Word.regexRealizable

/-! ## Helper lemmas -/

lemma mem_dualsFor {left : List ℚ} {bal dx wx bx : ℚ}
    (h : Schema.dual dx wx bx ∈ dualsFor left bal) : 15 ≤ |dx - wx| := by
  simp only [dualsFor, List.mem_flatMap, List.mem_filterMap] at h
  obtain ⟨dep, -, wit, -, hw⟩ := h
  by_cases h1 : dep = wit
  · simp [h1] at hw
  · by_cases h2 : |dep - wit| < 15
    · simp [h1, h2] at hw
    · rw [if_neg h1, if_neg h2] at hw
      injection hw with hw
      injection hw with hd hx hb
      rw [← hd, ← hx]
      exact le_of_not_lt h2

lemma mem_genDualAux {dx wx bx : ℚ} :
    ∀ (cols left : List ℚ),
      Schema.dual dx wx bx ∈ genDualAux left cols → 15 ≤ |dx - wx| := by
  intro cols
  induction cols with
  | nil => intro left h; simp [genDualAux] at h
  | cons bal rest ih =>
    intro left h
    simp only [genDualAux, List.mem_append] at h
    rcases h with h | h
    · exact mem_dualsFor h
    · exact ih _ h

lemma mem_singlesFor {left : List ℚ} {bal ax bx : ℚ}
    (h : Schema.single ax bx ∈ singlesFor left bal) : 15 ≤ |ax - bx| := by
  simp only [singlesFor, List.mem_filterMap] at h
  obtain ⟨amt, -, hw⟩ := h
  by_cases h2 : |amt - bal| < 15
  · simp [h2] at hw
  · rw [if_neg h2] at hw
    injection hw with hw
    injection hw with ha hb
    rw [← ha, ← hb]
    exact le_of_not_lt h2

lemma mem_genSingleAux {ax bx : ℚ} :
    ∀ (cols left : List ℚ),
      Schema.single ax bx ∈ genSingleAux left cols → 15 ≤ |ax - bx| := by
  intro cols
  induction cols with
  | nil => intro left h; simp [genSingleAux] at h
  | cons bal rest ih =>
    intro left h
    simp only [genSingleAux, List.mem_append] at h
    rcases h with h | h
    · exact mem_singlesFor h
    · exact ih _ h

lemma validate_foldl_dual (dx wx bx : ℚ) :
    ∀ (rows : List Row) (rec err : ℕ) (prev : Option ℚ),
      ValidationResult.mk
        ((rows.foldl (validateStep (Schema.dual dx wx bx))
          ⟨rec, err, prev⟩).reconciled)
        ((rows.foldl (validateStep (Schema.dual dx wx bx))
          ⟨rec, err, prev⟩).errors) =
      dualSpecLoop dx wx bx rows prev rec err := by
  intro rows
  induction rows with
  | nil => intro rec err prev; rfl
  | cons r rs ih =>
    intro rec err prev
    rw [List.foldl_cons]
    cases hbal : extract_amount r.words (some bx) 15 with
    | none =>
      rw [show validateStep (Schema.dual dx wx bx) ⟨rec, err, prev⟩ r =
          ⟨rec, err, prev⟩ by simp [validateStep, Schema.balance_x, hbal]]
      rw [show dualSpecLoop dx wx bx (r :: rs) prev rec err =
          dualSpecLoop dx wx bx rs prev rec err by
        simp [dualSpecLoop, hbal]]
      exact ih rec err prev
    | some bal =>
      cases prev with
      | none =>
        rw [show validateStep (Schema.dual dx wx bx) ⟨rec, err, none⟩ r =
            ⟨rec + 1, err, some bal⟩ by
          simp [validateStep, Schema.balance_x, hbal]]
        rw [show dualSpecLoop dx wx bx (r :: rs) none rec err =
            dualSpecLoop dx wx bx rs (some bal) (rec + 1) err by
          simp [dualSpecLoop, hbal]]
        exact ih (rec + 1) err (some bal)
      | some p =>
        cases hdep : extract_amount r.words (some dx) 15 with
        | some dep =>
          by_cases hc : |p + dep - bal| ≤ 1
          · rw [show validateStep (Schema.dual dx wx bx) ⟨rec, err, some p⟩ r
                = ⟨rec + 1, err, some bal⟩ by
              simp [validateStep, Schema.balance_x, hbal, hdep, hc]]
            rw [show dualSpecLoop dx wx bx (r :: rs) (some p) rec err =
                dualSpecLoop dx wx bx rs (some bal) (rec + 1) err by
              simp [dualSpecLoop, hbal, hdep, hc]]
            exact ih (rec + 1) err (some bal)
          · rw [show validateStep (Schema.dual dx wx bx) ⟨rec, err, some p⟩ r
                = ⟨rec, err + 1, some bal⟩ by
              simp [validateStep, Schema.balance_x, hbal, hdep, hc]]
            rw [show dualSpecLoop dx wx bx (r :: rs) (some p) rec err =
                dualSpecLoop dx wx bx rs (some bal) rec (err + 1) by
              simp [dualSpecLoop, hbal, hdep, hc]]
            exact ih rec (err + 1) (some bal)
        | none =>
          cases hwd : extract_amount r.words (some wx) 15 with
          | some wd =>
            by_cases hc : |p - wd - bal| ≤ 1
            · rw [show validateStep (Schema.dual dx wx bx) ⟨rec, err, some p⟩
                  r = ⟨rec + 1, err, some bal⟩ by
                simp [validateStep, Schema.balance_x, hbal, hdep, hwd, hc]]
              rw [show dualSpecLoop dx wx bx (r :: rs) (some p) rec err =
                  dualSpecLoop dx wx bx rs (some bal) (rec + 1) err by
                simp [dualSpecLoop, hbal, hdep, hwd, hc]]
              exact ih (rec + 1) err (some bal)
            · rw [show validateStep (Schema.dual dx wx bx) ⟨rec, err, some p⟩
                  r = ⟨rec, err + 1, some bal⟩ by
                simp [validateStep, Schema.balance_x, hbal, hdep, hwd, hc]]
              rw [show dualSpecLoop dx wx bx (r :: rs) (some p) rec err =
                  dualSpecLoop dx wx bx rs (some bal) rec (err + 1) by
                simp [dualSpecLoop, hbal, hdep, hwd, hc]]
              exact ih rec (err + 1) (some bal)
          | none =>
            rw [show validateStep (Schema.dual dx wx bx) ⟨rec, err, some p⟩ r
                = ⟨rec + 1, err, some bal⟩ by
              simp [validateStep, Schema.balance_x, hbal, hdep, hwd]]
            rw [show dualSpecLoop dx wx bx (r :: rs) (some p) rec err =
                dualSpecLoop dx wx bx rs (some bal) (rec + 1) err by
              simp [dualSpecLoop, hbal, hdep, hwd]]
            exact ih (rec + 1) err (some bal)

lemma validate_foldl_single (ax bx : ℚ) :
    ∀ (rows : List Row) (rec err : ℕ) (prev : Option ℚ),
      ValidationResult.mk
        ((rows.foldl (validateStep (Schema.single ax bx))
          ⟨rec, err, prev⟩).reconciled)
        ((rows.foldl (validateStep (Schema.single ax bx))
          ⟨rec, err, prev⟩).errors) =
      singleSpecLoop ax bx rows prev rec err := by
  intro rows
  induction rows with
  | nil => intro rec err prev; rfl
  | cons r rs ih =>
    intro rec err prev
    rw [List.foldl_cons]
    cases hbal : extract_amount r.words (some bx) 15 with
    | none =>
      rw [show validateStep (Schema.single ax bx) ⟨rec, err, prev⟩ r =
          ⟨rec, err, prev⟩ by simp [validateStep, Schema.balance_x, hbal]]
      rw [show singleSpecLoop ax bx (r :: rs) prev rec err =
          singleSpecLoop ax bx rs prev rec err by
        simp [singleSpecLoop, hbal]]
      exact ih rec err prev
    | some bal =>
      cases prev with
      | none =>
        rw [show validateStep (Schema.single ax bx) ⟨rec, err, none⟩ r =
            ⟨rec + 1, err, some bal⟩ by
          simp [validateStep, Schema.balance_x, hbal]]
        rw [show singleSpecLoop ax bx (r :: rs) none rec err =
            singleSpecLoop ax bx rs (some bal) (rec + 1) err by
          simp [singleSpecLoop, hbal]]
        exact ih (rec + 1) err (some bal)
      | some p =>
        cases hamt : extract_amount r.words (some ax) 15 with
        | none =>
          rw [show validateStep (Schema.single ax bx) ⟨rec, err, some p⟩ r =
              ⟨rec, err, some bal⟩ by
            simp [validateStep, Schema.balance_x, hbal, hamt]]
          rw [show singleSpecLoop ax bx (r :: rs) (some p) rec err =
              singleSpecLoop ax bx rs (some bal) rec err by
            simp [singleSpecLoop, hbal, hamt]]
          exact ih rec err (some bal)
        | some amt =>
          by_cases hc : |p + amt - bal| ≤ 1 ∨ |p - amt - bal| ≤ 1
          · rw [show validateStep (Schema.single ax bx) ⟨rec, err, some p⟩ r
                = ⟨rec + 1, err, some bal⟩ by
              simp only [validateStep, Schema.balance_x, hbal, hamt]
              rw [if_pos hc]]
            rw [show singleSpecLoop ax bx (r :: rs) (some p) rec err =
                singleSpecLoop ax bx rs (some bal) (rec + 1) err by
              simp only [singleSpecLoop, hbal, hamt]
              rw [if_pos hc]]
            exact ih (rec + 1) err (some bal)
          · rw [show validateStep (Schema.single ax bx) ⟨rec, err, some p⟩ r
                = ⟨rec, err + 1, some bal⟩ by
              simp only [validateStep, Schema.balance_x, hbal, hamt]
              rw [if_neg hc]]
            rw [show singleSpecLoop ax bx (r :: rs) (some p) rec err =
                singleSpecLoop ax bx rs (some bal) rec (err + 1) by
              simp only [singleSpecLoop, hbal, hamt]
              rw [if_neg hc]]
            exact ih rec (err + 1) (some bal)

/-! ## Claims -/

unseal Rat.sub Rat.add Rat.mul Rat.inv in
/-- C2 counterexample: on the column set `[0, 20, 25]` the generator
emits the dual schema `{deposit_x = 0, withdrawal_x = 20, balance_x = 25}`
although its withdrawal/balance distance is `5 < 15`, so not all pairwise
distances of an emitted dual schema are `≥ 15`. -/
theorem dual_schema_spacing_cex :
    Schema.dual 0 20 25 ∈ generate_dual_hypotheses [0, 20, 25] ∧
      |(20 : ℚ) - 25| < 15 := by
  decide

/-- C2 amended: every dual schema emitted by the hypothesis generator has
`|deposit_x - withdrawal_x| ≥ 15` (its distances to `balance_x` are not
constrained), and every single schema has `|amount_x - balance_x| ≥ 15`. -/
theorem hypothesis_spacing_amended :
    (∀ (cols : List ℚ) (dx wx bx : ℚ),
      Schema.dual dx wx bx ∈ generate_dual_hypotheses cols →
        15 ≤ |dx - wx|) ∧
    (∀ (cols : List ℚ) (ax bx : ℚ),
      Schema.single ax bx ∈ generate_single_amount_hypotheses cols →
        15 ≤ |ax - bx|) := by
  constructor
  · intro cols dx wx bx h
    exact mem_genDualAux cols [] h
  · intro cols ax bx h
    exact mem_genSingleAux cols [] h

unseal Rat.sub Rat.add Rat.mul Rat.inv in
/-- C2 amended witness: concrete instances of both parts on the column set
`[0, 20, 25]`. -/
theorem hypothesis_spacing_amended_witness :
    15 ≤ |(0 : ℚ) - 20| ∧ 15 ≤ |(0 : ℚ) - 25| :=
  ⟨hypothesis_spacing_amended.1 [0, 20, 25] 0 20 25 (by decide),
   hypothesis_spacing_amended.2 [0, 20, 25] 0 25 (by decide)⟩

/-- C8: `llm_arbitrate` maps every failure mode to `none` — arbitration
disabled, fewer than two candidates, failed external call / unparseable
response / non-integer `winner_index` (all abstracted into
`response = none`), or an out-of-range index — and any non-`none` result is
an element of the input candidate list. -/
theorem llm_arbitrate_fail_closed :
    ∀ (enabled : Bool) (response : Option ℤ) (candidates : List Candidate),
      (∀ c, llm_arbitrate enabled response candidates = some c →
        c ∈ candidates) ∧
      (enabled = false →
        llm_arbitrate enabled response candidates = none) ∧
      (candidates.length < 2 →
        llm_arbitrate enabled response candidates = none) ∧
      (response = none →
        llm_arbitrate enabled response candidates = none) ∧
      (∀ idx : ℤ, response = some idx →
        idx < 0 ∨ (candidates.length : ℤ) ≤ idx →
        llm_arbitrate enabled response candidates = none) := by
  intro enabled response candidates
  refine ⟨?_, ?_, ?_, ?_, ?_⟩
  · intro c h
    unfold llm_arbitrate at h
    split at h
    · exact absurd h (by simp)
    · split at h
      · exact absurd h (by simp)
      · split at h
        · exact absurd h (by simp)
        · split at h
          · exact absurd h (by simp)
          · exact List.get?_mem h
  · intro he; subst he; simp [llm_arbitrate]
  · intro hlen
    cases enabled <;> simp [llm_arbitrate, hlen]
  · intro hr; subst hr
    cases enabled <;> simp [llm_arbitrate]
  · intro idx hr hrange
    subst hr
    cases enabled <;> simp [llm_arbitrate, hrange]

unseal Rat.sub Rat.add Rat.mul Rat.inv in
/-- C8 witness: with arbitration enabled, two candidates and
`winner_index = 1`, the selected result is a member of the candidate list;
and the disabled / empty-list / no-response failure mode is `none`. -/
theorem llm_arbitrate_fail_closed_witness :
    (⟨Schema.single 0 40, 3 / 4, variantReversed⟩ : Candidate) ∈
      [(⟨Schema.single 0 20, 1 / 2, variantOriginal⟩ : Candidate),
       ⟨Schema.single 0 40, 3 / 4, variantReversed⟩] ∧
    llm_arbitrate false none ([] : List Candidate) = none :=
  ⟨(llm_arbitrate_fail_closed true (some 1)
      [⟨Schema.single 0 20, 1 / 2, variantOriginal⟩,
       ⟨Schema.single 0 40, 3 / 4, variantReversed⟩]).1 _ (by decide),
   (llm_arbitrate_fail_closed false none []).2.1 rfl⟩

unseal Rat.sub Rat.add Rat.mul Rat.inv in
/-- C3: on every row list, dual-schema validation behaves exactly as the
spec describes — bootstrap row reconciled without a check, deposit-first
then withdrawal arithmetic within epsilon 1, balance-only rows reconciled,
previous balance rolled to the row's balance after every row with an
extractable balance — and on the spec's 3-row example the tally is
`reconciled = 3, errors = 0`. -/
theorem validate_dual_refines_spec :
    (∀ (rows : List Row) (dx wx bx : ℚ),
      validate_hypothesis rows (Schema.dual dx wx bx) =
        validateDualSpec rows dx wx bx) ∧
    validate_hypothesis dualExampleRows (Schema.dual 0 30 60) =
      ⟨3, 0⟩ := by
  constructor
  · intro rows dx wx bx
    simpa [validate_hypothesis, validateDualSpec] using
      validate_foldl_dual dx wx bx rows 0 0 none
  · decide

/-- C4: on every row list, single-schema validation behaves exactly as the
claim describes — after the bootstrap row, a row with no extractable
amount only rolls the previous balance forward without touching either
counter, and a row with an amount reconciles iff either
`|prev + amt - bal| ≤ 1` or `|prev - amt - bal| ≤ 1`, otherwise counts an
error. -/
theorem validate_single_refines_spec :
    ∀ (rows : List Row) (ax bx : ℚ),
      validate_hypothesis rows (Schema.single ax bx) =
        validateSingleSpec rows ax bx := by
  intro rows ax bx
  simpa [validate_hypothesis, validateSingleSpec] using
    validate_foldl_single ax bx rows 0 0 none


lemma validateStep_bound (h : Schema) (s : VState) (r : Row) :
    (validateStep h s r).reconciled + (validateStep h s r).errors ≤
      s.reconciled + s.errors +
        (if (extract_amount r.words (some h.balance_x) 15).isSome
          then 1 else 0) := by
  unfold validateStep
  cases hbal : extract_amount r.words (some h.balance_x) 15 with
  | none => simp
  | some bal =>
    rcases s with ⟨rec, err, prev⟩
    cases prev with
    | none =>
      simp
      omega
    | some p =>
      cases h with
      | single ax bx =>
        repeat' split
        all_goals simp_all <;> omega
      | dual dx wx bx =>
        repeat' split
        all_goals simp_all <;> omega

lemma validate_foldl_bound (h : Schema) :
    ∀ (rows : List Row) (s : VState),
      (rows.foldl (validateStep h) s).reconciled +
          (rows.foldl (validateStep h) s).errors ≤
        s.reconciled + s.errors +
          rows.countP (fun r =>
            (extract_amount r.words (some h.balance_x) 15).isSome) := by
  intro rows
  induction rows with
  | nil => intro s; simp
  | cons r rs ih =>
    intro s
    rw [List.foldl_cons, List.countP_cons]
    refine le_trans (ih (validateStep h s r)) ?_
    have hb := validateStep_bound h s r
    cases hx : (extract_amount r.words (some h.balance_x) 15).isSome <;>
      rw [hx] at hb <;> simp [hx] at hb ⊢ <;> omega

/-- C5: for every row list and schema, the validation tally satisfies
`reconciled + errors ≤` the number of rows whose balance is extractable at
the schema's `balance_x`. -/
theorem validate_tally_bound :
    ∀ (rows : List Row) (h : Schema),
      (validate_hypothesis rows h).reconciled +
          (validate_hypothesis rows h).errors ≤
        (rows.filter fun r =>
          (extract_amount r.words (some h.balance_x) 15).isSome).length := by
  intro rows h
  have hb := validate_foldl_bound h rows ⟨0, 0, none⟩
  simpa [validate_hypothesis, List.countP_eq_length_filter] using hb

/-- A row on which both amount tokens lie within tolerance of the target:
the first token in row order (value 100) is farther from the target than
the second (value 200). -/
def nearestCexRow : List Word :=
  [⟨10, 20, some 100, true, none, none⟩, ⟨0, 10, some 200, true, none, none⟩]

unseal Rat.sub Rat.add Rat.mul Rat.inv in
/-- C6 counterexample: with `target_x = 0`, both tokens of `nearestCexRow`
are within the tolerance of 15, the second token (position 0, value 200)
is strictly nearer to the target than the first (position 10, value 100),
yet `extract_amount` returns 100 — the first match in row order, not the
nearest. -/
theorem extract_amount_nearest_cex :
    extract_amount nearestCexRow (some 0) 15 = some 100 ∧
      |(10 : ℚ) - 0| ≤ 15 ∧ |(0 : ℚ) - 0| ≤ 15 ∧
      |(0 : ℚ) - 0| < |(10 : ℚ) - 0| ∧ (100 : ℚ) ≠ 200 := by
  decide

lemma validateStep_skip (h : Schema) (s : VState) (r : Row)
    (hbal : extract_amount r.words (some h.balance_x) 15 = none) :
    validateStep h s r = s := by
  simp [validateStep, hbal]

/-- C6 amended: `extract_amount` returns the amount of the *first* token
in row order lying within tolerance of the target whose text has an
amount-shaped substring (not the nearest such token); and a row with no
extractable balance is skipped without affecting the reconciled/error
tally. -/
theorem extract_amount_first_match_and_skip :
    (∀ (ws : List Word) (t tol : ℚ),
      extract_amount ws (some t) tol =
        (ws.find? fun w =>
          decide (|w.x0 - t| ≤ tol) && w.amount.isSome).bind Word.amount) ∧
    (∀ (pre post : List Row) (r : Row) (h : Schema),
      extract_amount r.words (some h.balance_x) 15 = none →
      validate_hypothesis (pre ++ r :: post) h =
        validate_hypothesis (pre ++ post) h) := by
  constructor
  · intro ws t tol
    induction ws with
    | nil => rfl
    | cons w rest ih =>
      by_cases htol : |w.x0 - t| ≤ tol
      · cases ha : w.amount with
        | none =>
          rw [show extract_amount (w :: rest) (some t) tol =
              extract_amount rest (some t) tol by
            simp [extract_amount, htol, ha]]
          rw [List.find?_cons_of_neg _ (by simp [htol, ha])]
          exact ih
        | some v =>
          rw [show extract_amount (w :: rest) (some t) tol = some v by
            simp [extract_amount, htol, ha]]
          rw [List.find?_cons_of_pos _ (by simp [htol, ha])]
          simp [ha]
      · rw [show extract_amount (w :: rest) (some t) tol =
            extract_amount rest (some t) tol by
          simp [extract_amount, htol]]
        rw [List.find?_cons_of_neg _ (by simp [htol])]
        exact ih
  · intro pre post r h hbal
    unfold validate_hypothesis
    rw [List.foldl_append, List.foldl_append, List.foldl_cons,
      validateStep_skip h _ r hbal]

/-- C6 amended witness: a row whose token list is empty has no extractable
balance and leaves the validation tally of the surrounding list
unchanged. -/
theorem extract_amount_first_match_and_skip_witness :
    validate_hypothesis [⟨[], none, false⟩] (Schema.single 0 20) =
      validate_hypothesis [] (Schema.single 0 20) :=
  extract_amount_first_match_and_skip.2 [] [] ⟨[], none, false⟩
    (Schema.single 0 20) rfl

lemma dated_length_eq (rows : List Row) :
    (rows.filterMap fun r => (extract_date r).map fun d => (d, r)).length =
      rows.countP fun r => (extract_date r).isSome := by
  induction rows with
  | nil => rfl
  | cons r rs ih =>
    cases hd : extract_date r <;>
      simp [List.filterMap_cons, hd, List.countP_cons, ih]

lemma choose_best_insufficient (rows : List Row) (m : ℕ)
    (h : (rows.countP fun r => (extract_date r).isSome) < m) :
    choose_best_hypothesis rows m = (none, 0) := by
  unfold choose_best_hypothesis
  rw [if_pos]
  rw [dated_length_eq]
  exact h

lemma retryLoop_all_skip (choose : List Row → Option Schema × ℚ)
    (a rtr : ℚ) :
    ∀ variants : List (String × List Row),
      (∀ p ∈ variants, (choose p.2).1 = none) →
      retryLoop choose a rtr variants [] = .rejected := by
  intro variants
  induction variants with
  | nil => intro _; rfl
  | cons p rest ih =>
    intro hall
    obtain ⟨name, vrows⟩ := p
    rcases hc : choose vrows with ⟨s1, c1⟩
    have hs : s1 = none := by
      have := hall (name, vrows) (by simp)
      rwa [hc] at this
    subst hs
    simp only [retryLoop, hc]
    exact ih fun p hp => hall p (List.mem_cons_of_mem _ hp)

/-- C7: when fewer than `min_rows = 10` rows yield a parseable date, the
selector returns no schema with confidence 0, the whole parse flow reports
"Schema detection failed" (every retry variant has no more dated rows than
the original, so all of them are rejected too), and no transactions are
extracted for the document. -/
theorem insufficient_dated_rows_rejects :
    ∀ (rows : List Row) (enabled : Bool) (response : Option ℤ),
      (rows.countP fun r => (extract_date r).isSome) < 10 →
      choose_best_hypothesis rows 10 = (none, 0) ∧
      parse_statement_core rows enabled response = .error schemaFailMsg ∧
      parse_statement_transactions rows enabled response = [] := by
  intro rows enabled response hcount
  have hchoose := choose_best_insufficient rows 10 hcount
  have hvar : ∀ p ∈ retryVariants rows,
      (((fun v => choose_best_hypothesis v 10) : List Row → _) p.2).1
        = none := by
    intro p hp
    have hc : (p.2.countP fun r => (extract_date r).isSome) < 10 := by
      have hrev : (rows.reverse.countP fun r => (extract_date r).isSome) =
          rows.countP fun r => (extract_date r).isSome :=
        (List.reverse_perm rows).countP_eq _
      have hdrop : ((rows.drop 3).countP fun r =>
          (extract_date r).isSome) ≤
            rows.countP fun r => (extract_date r).isSome :=
        (List.drop_sublist 3 rows).countP_le _
      have htake : ((rows.take (rows.length - 3)).countP fun r =>
          (extract_date r).isSome) ≤
            rows.countP fun r => (extract_date r).isSome :=
        (List.take_sublist _ rows).countP_le _
      by_cases h6 : 6 < rows.length
      · simp only [retryVariants, h6, if_true, List.mem_append,
          List.mem_cons, List.mem_singleton, List.not_mem_nil,
          or_false] at hp
        rcases hp with ((hp | hp) | hp) | hp <;> subst hp
        · exact hcount
        · dsimp only
          rw [hrev]
          exact hcount
        · exact lt_of_le_of_lt hdrop hcount
        · exact lt_of_le_of_lt htake hcount
      · simp only [retryVariants, h6, if_false, List.append_nil,
          List.mem_cons, List.mem_singleton, List.not_mem_nil,
          or_false] at hp
        rcases hp with hp | hp <;> subst hp
        · exact hcount
        · dsimp only
          rw [hrev]
          exact hcount
    exact congrArg Prod.fst (choose_best_insufficient p.2 10 hc)
  have hretry : retry_with_variants rows
      (fun v => choose_best_hypothesis v 10) (95 / 100) (7 / 10) =
        .rejected :=
    retryLoop_all_skip _ _ _ _ hvar
  have hcore : parse_statement_core rows enabled response =
      .error schemaFailMsg := by
    unfold parse_statement_core
    rw [hchoose, hretry]
    norm_num [RetryOutcome.schemaField]
  refine ⟨hchoose, hcore, ?_⟩
  unfold parse_statement_transactions
  rw [hcore]

/-- C7 witness: the empty document has zero dated rows, is rejected by the
selector and yields no transactions. -/
theorem insufficient_dated_rows_rejects_witness :
    choose_best_hypothesis [] 10 = (none, 0) ∧
      parse_statement_core [] true none = .error schemaFailMsg ∧
      parse_statement_transactions [] true none = [] :=
  insufficient_dated_rows_rejects [] true none (by decide)

lemma find?_append_none {α : Type} (p : α → Bool) :
    ∀ (l₁ l₂ : List α), (∀ x ∈ l₁, p x = false) →
      (l₁ ++ l₂).find? p = l₂.find? p := by
  intro l₁
  induction l₁ with
  | nil => intro l₂ _; rfl
  | cons x xs ih =>
    intro l₂ hall
    rw [List.cons_append,
      List.find?_cons_of_neg _ (by simp [hall x (by simp)]),
      ih l₂ fun y hy => hall y (List.mem_cons_of_mem _ hy)]

lemma varCandidates_nil (choose : List Row → Option Schema × ℚ) :
    varCandidates choose [] = [] := rfl

lemma varCandidates_cons_none (choose : List Row → Option Schema × ℚ)
    (name : String) (vrows : List Row)
    (rest : List (String × List Row)) (conf : ℚ)
    (hc : choose vrows = (none, conf)) :
    varCandidates choose ((name, vrows) :: rest) =
      varCandidates choose rest := by
  simp [varCandidates, List.filterMap_cons, hc]

lemma varCandidates_cons_some (choose : List Row → Option Schema × ℚ)
    (name : String) (vrows : List Row)
    (rest : List (String × List Row)) (s : Schema) (conf : ℚ)
    (hc : choose vrows = (some s, conf)) :
    varCandidates choose ((name, vrows) :: rest) =
      ⟨s, conf, name⟩ :: varCandidates choose rest := by
  simp [varCandidates, List.filterMap_cons, hc]

lemma retryLoop_eq_spec (choose : List Row → Option Schema × ℚ)
    (a rt : ℚ) :
    ∀ (variants : List (String × List Row)) (acc : List Candidate),
      (∀ c ∈ acc, ¬a ≤ c.confidence) →
      retryLoop choose a rt variants acc =
        match (acc ++ varCandidates choose variants).find?
            (fun c => decide (a ≤ c.confidence)) with
        | some c => .accepted c.schema c.confidence c.variant
        | none =>
          if acc ++ varCandidates choose variants = [] then .rejected
          else .needsArbitration (acc ++ varCandidates choose variants) := by
  intro variants
  induction variants with
  | nil =>
    intro acc hacc
    have hfind : acc.find? (fun c => decide (a ≤ c.confidence)) = none :=
      List.find?_eq_none.mpr fun c hc => by
        simpa using hacc c hc
    cases acc with
    | nil => simp [retryLoop, varCandidates_nil]
    | cons c cs =>
      simp only [varCandidates_nil, List.append_nil, hfind]
      rw [show retryLoop choose a rt [] (c :: cs) =
          .needsArbitration (c :: cs) by
        simp [retryLoop]]
      simp
  | cons p rest ih =>
    intro acc hacc
    obtain ⟨name, vrows⟩ := p
    rcases hc : choose vrows with ⟨s?, conf⟩
    cases s? with
    | none =>
      rw [show retryLoop choose a rt ((name, vrows) :: rest) acc =
          retryLoop choose a rt rest acc by simp [retryLoop, hc]]
      rw [ih acc hacc, varCandidates_cons_none choose name vrows rest conf hc]
    | some s =>
      by_cases hconf : a ≤ conf
      · rw [show retryLoop choose a rt ((name, vrows) :: rest) acc =
            .accepted s conf name by simp [retryLoop, hc, hconf]]
        rw [varCandidates_cons_some choose name vrows rest s conf hc]
        rw [find?_append_none _ acc _ fun c hcm => by
          simpa using hacc c hcm]
        rw [List.find?_cons_of_pos _ (by simpa using hconf)]
      · rw [show retryLoop choose a rt ((name, vrows) :: rest) acc =
            retryLoop choose a rt rest (acc ++ [Candidate.mk s conf name])
          by simp [retryLoop, hc, hconf]]
        rw [ih (acc ++ [Candidate.mk s conf name]) ?hinv]
        case hinv =>
          intro c hcm
          rcases List.mem_append.mp hcm with hcm | hcm
          · exact hacc c hcm
          · simp at hcm
            rw [hcm]
            exact hconf
        rw [varCandidates_cons_some choose name vrows rest s conf hc]
        rw [List.append_assoc, List.singleton_append]

/-- C10: the retry controller equals its spec-side description — it
accepts exactly the first variant (in the fixed order original, reversed,
drop-first-3, drop-last-3, the trimmed variants existing only when the row
count exceeds 6) whose selector confidence reaches `accept_threshold`, so
every accepted outcome carries that much confidence; with no such variant,
any run with at least one schema-producing variant (even exactly one)
yields `needs_arbitration` with all candidates in order, otherwise
`rejected`; and `retry_threshold` never influences the outcome (it does
not occur in the spec side of the equality). -/
theorem retry_with_variants_refines_spec :
    ∀ (rows : List Row) (choose : List Row → Option Schema × ℚ)
      (accept_threshold retry_threshold : ℚ),
      retry_with_variants rows choose accept_threshold retry_threshold =
        retryControllerSpec rows choose accept_threshold := by
  intro rows choose a rt
  have hmain := retryLoop_eq_spec choose a rt (retryVariants rows) []
    (by simp)
  rw [retry_with_variants, hmain]
  simp only [retryControllerSpec, retryCandidates, List.nil_append]

lemma roundHalfEven_nonneg {q : ℚ} (h : 0 ≤ q) : 0 ≤ roundHalfEven q := by
  have hf : (0 : ℤ) ≤ ⌊q⌋ := Int.floor_nonneg.mpr h
  unfold roundHalfEven
  split_ifs <;> omega

lemma pyRound_nonneg {q : ℚ} (n : ℕ) (h : 0 ≤ q) : 0 ≤ pyRound q n := by
  unfold pyRound
  apply div_nonneg
  · exact_mod_cast roundHalfEven_nonneg (mul_nonneg h (by positivity))
  · positivity

lemma pyRound_zero (n : ℕ) : pyRound 0 n = 0 := by
  unfold pyRound roundHalfEven
  norm_num

lemma extract_amount_mem :
    ∀ (ws : List Word) (t tol v : ℚ),
      extract_amount ws (some t) tol = some v →
      ∃ w ∈ ws, w.amount = some v := by
  intro ws
  induction ws with
  | nil => intro t tol v h; simp [extract_amount] at h
  | cons w rest ih =>
    intro t tol v h
    by_cases htol : |w.x0 - t| ≤ tol
    · cases ha : w.amount with
      | some u =>
        rw [show extract_amount (w :: rest) (some t) tol = some u by
          simp [extract_amount, htol, ha]] at h
        exact ⟨w, by simp, by rw [ha, Option.some_inj.mp h]⟩
      | none =>
        rw [show extract_amount (w :: rest) (some t) tol =
            extract_amount rest (some t) tol by
          simp [extract_amount, htol, ha]] at h
        obtain ⟨w', hw', ha'⟩ := ih t tol v h
        exact ⟨w', List.mem_cons_of_mem _ hw', ha'⟩
    · rw [show extract_amount (w :: rest) (some t) tol =
          extract_amount rest (some t) tol by
        simp [extract_amount, htol]] at h
      obtain ⟨w', hw', ha'⟩ := ih t tol v h
      exact ⟨w', List.mem_cons_of_mem _ hw', ha'⟩

lemma word_realizable_facts {ws : List Word}
    (h : ws.all Word.regexRealizable = true) {w : Word} (hw : w ∈ ws) :
    (∀ v, w.amount = some v → 0 ≤ v) ∧ (∀ v, w.cr = some v → 0 ≤ v) ∧
      (∀ v, w.dr = some v → 0 ≤ v) := by
  have hw' : Word.regexRealizable w = true := List.all_eq_true.mp h w hw
  unfold Word.regexRealizable at hw'
  simp only [Bool.and_eq_true] at hw'
  obtain ⟨⟨h1, h2⟩, h3⟩ := hw'
  refine ⟨?_, ?_, ?_⟩ <;> intro v hv
  · rw [hv] at h1; simpa [Option.all] using h1
  · rw [hv] at h2; simpa [Option.all] using h2
  · rw [hv] at h3; simpa [Option.all] using h3

lemma words_amount_nonneg {ws : List Word}
    (h : ws.all Word.regexRealizable = true) {t tol v : ℚ}
    (he : extract_amount ws (some t) tol = some v) : 0 ≤ v := by
  obtain ⟨w, hw, ha⟩ := extract_amount_mem ws t tol v he
  exact (word_realizable_facts h hw).1 v ha

/-- Classification of a deposit/withdrawal pair as produced by the
explicit-marker and dual-column steps: both absent, or both present with
nonnegative values of which at least one is zero. -/
def GoodPair (dw : Option ℚ × Option ℚ) : Prop :=
  dw = (none, none) ∨
    ∃ a b, dw = (some a, some b) ∧ 0 ≤ a ∧ 0 ≤ b ∧ (a = 0 ∨ b = 0)

lemma extract_explicit_dr_cr_good :
    ∀ (ws : List Word), ws.all Word.regexRealizable = true →
      ∀ (bx tol : ℚ), GoodPair (extract_explicit_dr_cr ws bx tol) := by
  intro ws
  induction ws with
  | nil => intro _ bx tol; left; rfl
  | cons w rest ih =>
    intro hall bx tol
    have hw := word_realizable_facts hall (List.mem_cons_self w rest)
    have hrest : rest.all Word.regexRealizable = true := by
      simp only [List.all_cons, Bool.and_eq_true] at hall
      exact hall.2
    by_cases hbx : |w.x0 - bx| ≤ tol
    · rw [show extract_explicit_dr_cr (w :: rest) bx tol =
          extract_explicit_dr_cr rest bx tol by
        simp [extract_explicit_dr_cr, hbx]]
      exact ih hrest bx tol
    · cases hcr : w.cr with
      | some v =>
        rw [show extract_explicit_dr_cr (w :: rest) bx tol =
            (some v, some 0) by
          simp [extract_explicit_dr_cr, hbx, hcr]]
        right
        exact ⟨v, 0, rfl, hw.2.1 v hcr, le_refl 0, Or.inr rfl⟩
      | none =>
        cases hdr : w.dr with
        | some v =>
          rw [show extract_explicit_dr_cr (w :: rest) bx tol =
              (some 0, some v) by
            simp [extract_explicit_dr_cr, hbx, hcr, hdr]]
          right
          exact ⟨0, v, rfl, le_refl 0, hw.2.2 v hdr, Or.inl rfl⟩
        | none =>
          rw [show extract_explicit_dr_cr (w :: rest) bx tol =
              extract_explicit_dr_cr rest bx tol by
            simp [extract_explicit_dr_cr, hbx, hcr, hdr]]
          exact ih hrest bx tol

lemma dualColumnStep_good (schema : Schema) {ws : List Word}
    (hall : ws.all Word.regexRealizable = true)
    {dw : Option ℚ × Option ℚ} (hdw : GoodPair dw) :
    GoodPair (dualColumnStep schema ws dw) := by
  unfold dualColumnStep
  split_ifs with hcond
  · cases hdep : extract_amount ws schema.depositField 15 with
    | some dep =>
      right
      refine ⟨dep, 0, rfl, ?_, le_refl 0, Or.inr rfl⟩
      cases hf : schema.depositField with
      | none => rw [hf] at hdep; simp [extract_amount] at hdep
      | some dx =>
        rw [hf] at hdep
        exact words_amount_nonneg hall hdep
    | none =>
      cases hwd : extract_amount ws schema.withdrawalField 15 with
      | some wd =>
        right
        refine ⟨0, wd, rfl, le_refl 0, ?_, Or.inl rfl⟩
        cases hf : schema.withdrawalField with
        | none => rw [hf] at hwd; simp [extract_amount] at hwd
        | some wx =>
          rw [hf] at hwd
          exact words_amount_nonneg hall hwd
      | none => left; rfl
  · exact hdw

lemma deltaFallbackStep_sign (prev : Option ℚ) (balance : ℚ)
    {dw : Option ℚ × Option ℚ} (hdw : GoodPair dw) :
    0 ≤ (deltaFallbackStep prev balance dw).1 ∧
      0 ≤ (deltaFallbackStep prev balance dw).2 ∧
      ((deltaFallbackStep prev balance dw).1 = 0 ∨
        (deltaFallbackStep prev balance dw).2 = 0) := by
  rcases hdw with hdw | ⟨a, b, hdw, ha, hb, hab⟩ <;> subst hdw
  · unfold deltaFallbackStep
    rw [if_pos ⟨rfl, rfl⟩]
    cases prev with
    | none => exact ⟨le_refl 0, le_refl 0, Or.inl rfl⟩
    | some p =>
      dsimp only
      split_ifs with hd
      · exact ⟨hd, le_refl 0, Or.inr rfl⟩
      · exact ⟨le_refl 0, by dsimp only; linarith [lt_of_not_le hd],
          Or.inl rfl⟩
  · unfold deltaFallbackStep
    rw [if_neg (by simp)]
    exact ⟨ha, hb, hab⟩

lemma extractLoop_sign (schema : Schema) (conf : ℚ) :
    ∀ (rows : List Row) (prev : Option ℚ),
      rowsRealizable rows = true →
      ∀ t ∈ extractLoop schema conf rows prev,
        0 ≤ t.deposit ∧ 0 ≤ t.withdrawal ∧
          (t.deposit = 0 ∨ t.withdrawal = 0) := by
  intro rows
  induction rows with
  | nil => intro prev _ t ht; simp [extractLoop] at ht
  | cons r rs ih =>
    intro prev hreal t ht
    have hr : r.words.all Word.regexRealizable = true ∧
        rowsRealizable rs = true := by
      simpa only [rowsRealizable, List.all_cons, Bool.and_eq_true]
        using hreal
    by_cases hsum : is_summary_row r
    · rw [show extractLoop schema conf (r :: rs) prev =
          extractLoop schema conf rs prev by simp [extractLoop, hsum]] at ht
      exact ih prev hr.2 t ht
    · cases hdate : extract_date r with
      | none =>
        rw [show extractLoop schema conf (r :: rs) prev =
            extractLoop schema conf rs prev by
          simp [extractLoop, hsum, hdate]] at ht
        exact ih prev hr.2 t ht
      | some date =>
        cases hbal : extract_amount r.words (some schema.balance_x) 15 with
        | none =>
          rw [show extractLoop schema conf (r :: rs) prev =
              extractLoop schema conf rs prev by
            simp [extractLoop, hsum, hdate, hbal]] at ht
          exact ih prev hr.2 t ht
        | some balance =>
          have hstep : extractLoop schema conf (r :: rs) prev =
              (let dw := deltaFallbackStep prev balance
                (dualColumnStep schema r.words
                  (extract_explicit_dr_cr r.words schema.balance_x 15))
               { date := date
                 amount := pyRound (dw.1 - dw.2) 2
                 deposit := pyRound dw.1 2
                 withdrawal := pyRound dw.2 2
                 balance := pyRound balance 2
                 confidence := pyRound conf 3 } ::
                extractLoop schema conf rs (some balance)) := by
            simp [extractLoop, hsum, hdate, hbal]
          rw [hstep] at ht
          rcases List.mem_cons.mp ht with ht | ht
          · have hgood := deltaFallbackStep_sign prev balance
              (dualColumnStep_good schema hr.1
                (extract_explicit_dr_cr_good r.words hr.1
                  schema.balance_x 15))
            subst ht
            refine ⟨pyRound_nonneg 2 hgood.1, pyRound_nonneg 2 hgood.2.1, ?_⟩
            rcases hgood.2.2 with h0 | h0
            · left
              show pyRound _ 2 = 0
              rw [h0, pyRound_zero]
            · right
              show pyRound _ 2 = 0
              rw [h0, pyRound_zero]
          · exact ih (some balance) hr.2 t ht

/-- C9: every transaction emitted by `extract_transactions` (on any rows
whose regex-derived token values are nonnegative, which the unsigned
amount regexes guarantee) has `deposit ≥ 0`, `withdrawal ≥ 0`, and at most
one of the two non-zero. -/
theorem extract_transactions_sign_invariant :
    ∀ (rows : List Row) (schema : Schema) (confidence : ℚ),
      rowsRealizable rows = true →
      ∀ t ∈ extract_transactions rows schema confidence,
        0 ≤ t.deposit ∧ 0 ≤ t.withdrawal ∧
          (t.deposit = 0 ∨ t.withdrawal = 0) :=
  fun rows schema confidence hreal =>
    extractLoop_sign schema confidence rows none hreal

unseal Rat.sub Rat.add Rat.mul Rat.inv in
/-- C9 witness: the invariant checked on the concrete 3-row dual
example. -/
theorem extract_transactions_sign_invariant_witness :
    rowsRealizable dualExampleRows = true ∧
      ∀ t ∈ extract_transactions dualExampleRows (Schema.dual 0 30 60) 1,
        0 ≤ t.deposit ∧ 0 ≤ t.withdrawal ∧
          (t.deposit = 0 ∨ t.withdrawal = 0) :=
  ⟨by decide, extract_transactions_sign_invariant dualExampleRows
    (Schema.dual 0 30 60) 1 (by decide)⟩

lemma llm_arbitrate_single {α : Type} (enabled : Bool)
    (response : Option ℤ) (x : α) :
    llm_arbitrate enabled response [x] = none := by
  cases enabled <;> simp [llm_arbitrate]

lemma parse_core_needsArb (rows : List Row) (enabled : Bool)
    (response : Option ℤ) (cands : List Candidate)
    (hlow : (choose_best_hypothesis rows 10).2 < 9 / 10)
    (hretry : retry_with_variants rows (fun v => choose_best_hypothesis v 10)
      (95 / 100) (7 / 10) = .needsArbitration cands) :
    parse_statement_core rows enabled response = .error schemaFailMsg := by
  simp only [parse_statement_core]
  rw [if_pos hlow, hretry, llm_arbitrate_single]
  rfl

unseal Rat.sub Rat.add Rat.mul Rat.inv in
/-- C1 (claim vs code): on `arbFailRows` the selector confidence is
`5/6 < 0.9` and the retry controller returns `needs_arbitration` with a
non-empty candidate list; because `parse_statement` hands `llm_arbitrate`
the one-element list `[final]` (the retry-outcome dict itself, not the
candidates), arbitration always resolves to `None`, and the pipeline then
returns the "Schema detection failed" error — for every oracle state —
instead of falling back to the highest-confidence candidate; no
transactions are extracted. -/
theorem parse_statement_no_arbitration_fallback :
    ∀ (enabled : Bool) (response : Option ℤ),
      choose_best_hypothesis arbFailRows 10 =
        (some (Schema.single 10 110), 5 / 6) ∧
      retry_with_variants arbFailRows (fun v => choose_best_hypothesis v 10)
          (95 / 100) (7 / 10) =
        .needsArbitration
          [⟨Schema.single 10 110, 5 / 6, variantOriginal⟩,
           ⟨Schema.single 10 110, 5 / 6, variantReversed⟩] ∧
      parse_statement_core arbFailRows enabled response =
        .error schemaFailMsg ∧
      parse_statement_transactions arbFailRows enabled response = [] := by
  intro enabled response
  have hchoose : choose_best_hypothesis arbFailRows 10 =
      (some (Schema.single 10 110), 5 / 6) := by decide
  have hretry : retry_with_variants arbFailRows
      (fun v => choose_best_hypothesis v 10) (95 / 100) (7 / 10) =
        .needsArbitration
          [⟨Schema.single 10 110, 5 / 6, variantOriginal⟩,
           ⟨Schema.single 10 110, 5 / 6, variantReversed⟩] := by decide
  have hcore : parse_statement_core arbFailRows enabled response =
      .error schemaFailMsg := by
    apply parse_core_needsArb
    · rw [hchoose]; norm_num
    · exact hretry
  refine ⟨hchoose, hretry, hcore, ?_⟩
  unfold parse_statement_transactions
  rw [hcore]
